import Mathlib

/-!
Shallow embedding of the `hocon-python` library (a Python transliteration of
the Typesafe Config Java library), covering the parts needed by the claims:

* `ResolveStatus`, `SimpleConfigObject` and its constructor check
  (`src/hocon/impl/ResolveStatus.py`, `src/hocon/impl/SimpleConfigObject.py`);
* the merge algebra `with_fallback` / `merged_with_object`
  (`src/hocon/impl/AbstractConfigValue.py`, `SimpleConfigObject.py`);
* `modify`, `resolve_substitutions`, `relativized`, `without_path`;
* `Path` / `PathBuilder` (`src/hocon/impl/Path.py`, `PathBuilder.py`);
* the tokenizer's whitespace saver and token predicates
  (`src/hocon/impl/tokenizer.py`, `tokens.py`);
* exception message rendering (`src/hocon/exceptions.py`).

Modelling conventions, applied uniformly:

* The source is a rough Java-to-Python transliteration.  Pure *name-resolution*
  noise is normalized when translating: missing `self.` qualifiers (`value`,
  `ignores_fallbacks`), camelCase leftovers (`ResolveStatus.fromValues`,
  `self.ignoresFallbacks`, `self.checkCanAppend`), missing imports, and
  method references missing call parentheses (`self.resolve_status`).
  *Dataflow and control-flow structure is kept exactly as written*, including
  slips such as the `changes is not None` guard in `modify`, the re-append of
  all elements in `Path.of_elements`, the unwrapped return in
  `tokens.new_string`, and `new_copy` omitting the required `value` argument.
* Python dictionaries are insertion-ordered association lists
  (`List (String × Value)`); `dict.get` is lookup of the first binding,
  `d[k] = v` replaces the first binding in place or appends.
* Raised exceptions are modelled with `Except String`; the string is the
  exception message (or a description of the Python-level failure).
* Origins are not carried on values: `SimpleConfigOrigin` is not among the
  sources, and the code's `__eq__` deliberately excludes origins from
  equality.  Where an origin-dependent result is needed (exception message
  rendering) the origin record is modelled from the spec.
* `ConfigString`, `ConfigReference` (substitutions) and `ConfigDelayedMerge`
  are not among the sources; the `Value` constructors `str`, `substitution`
  and `delayedMerge` and their resolve statuses are modelled from the spec
  (§3 "Deferred values", §4.3): substitutions and delayed merges are
  unresolved and unmergeable, strings are resolved leaves.
-/

namespace Hocon

/-- `ResolveStatus` from `src/hocon/impl/ResolveStatus.py`: status of
substitution resolution. -/
inductive ResolveStatus where
  | unresolved
  | resolved
deriving DecidableEq, Repr

/-- The value tree.  `lit` stands for the resolved leaf scalars
(null/boolean/number), identified by an abstract payload; `str` is
`ConfigString` (modelled from the spec: a resolved string leaf);
`substitution` is `ConfigReference` (modelled from the spec: an unresolved,
unmergeable leaf); `obj` is `SimpleConfigObject` with its three fields
`value`, `resolved`, `ignores_fallbacks`; `delayedMerge` is
`ConfigDelayedMerge` (modelled from the spec: an unresolved, unmergeable
stack of values). -/
inductive Value where
  | lit (id : Nat)
  | str (s : String)
  | substitution (id : Nat)
  | obj (fields : List (String × Value)) (resolved : Bool) (ignoresFallbacks : Bool)
  | delayedMerge (stack : List Value)

/-- `AbstractConfigValue.resolve_status` / `SimpleConfigObject.resolve_status`:
leaf scalars and strings are resolved (the base-class default), objects carry
their flag, substitutions and delayed merges are unresolved (modelled from
the spec). -/
def Value.resolveStatus : Value → ResolveStatus
  | .lit _ => .resolved
  | .str _ => .resolved
  | .substitution _ => .unresolved
  | .obj _ r _ => if r then .resolved else .unresolved
  | .delayedMerge _ => .unresolved

/-- `ResolveStatus.from_values`: unresolved as soon as one value is. -/
def ResolveStatus.fromValues (values : List Value) : ResolveStatus :=
  match values with
  | [] => .resolved
  | v :: rest =>
    if v.resolveStatus = .unresolved then .unresolved
    else ResolveStatus.fromValues rest

/-- `ResolveStatus.from_boolean`. -/
def ResolveStatus.fromBoolean (resolved : Bool) : ResolveStatus :=
  if resolved then .resolved else .unresolved

/-- Python `dict.get`: the value of the first binding of `k`, if any. -/
def dictGet {α : Type} (d : List (String × α)) (k : String) : Option α :=
  match d with
  | [] => none
  | (k', v) :: rest => if k' = k then some v else dictGet rest k

/-- Python `d[k] = v` on an insertion-ordered dict: replace the first binding
of `k` in place, else append at the end. -/
def dictSet {α : Type} (d : List (String × α)) (k : String) (v : α) :
    List (String × α) :=
  match d with
  | [] => [(k, v)]
  | (k', v') :: rest =>
    if k' = k then (k, v) :: rest else (k', v') :: dictSet rest k v

/-- `SimpleConfigObject`'s fields: the immutable map, the `resolved` boolean
and the `ignores_fallbacks` boolean. -/
structure SimpleConfigObject where
  value : List (String × Value)
  resolved : Bool
  ignoresFallbacks : Bool

def SimpleConfigObject.toValue (o : SimpleConfigObject) : Value :=
  .obj o.value o.resolved o.ignoresFallbacks

/-- `SimpleConfigObject.resolve_status()`: `ResolveStatus.from_boolean(self.resolved)`. -/
def SimpleConfigObject.resolveStatus (o : SimpleConfigObject) : ResolveStatus :=
  ResolveStatus.fromBoolean o.resolved

/-- `SimpleConfigObject.__init__`.  Raises `BugOrBroken` on a null map, sets
`self.resolved = status == ResolveStatus.resolved`, then performs the debug
check `if status != ResolveStatus.from_values(value.values()): raise
BugOrBroken(...)` (camelCase `fromValues` in source normalized).  The Python
`status` parameter defaults to `None`, so it is an `Option`; `None` always
fails the check. -/
def mkSimpleConfigObject (value : Option (List (String × Value)))
    (status : Option ResolveStatus) (ignoresFallbacks : Bool) :
    Except String SimpleConfigObject :=
  match value with
  | none => .error "creating config object with null map"
  | some m =>
    if status = some (ResolveStatus.fromValues (m.map Prod.snd)) then
      .ok ⟨m, decide (status = some ResolveStatus.resolved), ignoresFallbacks⟩
    else
      .error "Wrong resolved status"

/-! ### Sizes (for termination of the mutually recursive operations) -/

mutual

def sizeV : Value → Nat
  | .lit _ => 1
  | .str _ => 1
  | .substitution _ => 1
  | .obj f _ _ => 1 + sizeFields f
  | .delayedMerge s => 1 + sizeVList s

def sizeFields : List (String × Value) → Nat
  | [] => 0
  | (_, v) :: rest => 1 + sizeV v + sizeFields rest

def sizeVList : List Value → Nat
  | [] => 0
  | v :: rest => 1 + sizeV v + sizeVList rest

end

def sizeVO : Option Value → Nat
  | none => 0
  | some v => sizeV v

theorem dictGet_sizeV {d : List (String × Value)} {k : String} {v : Value}
    (h : dictGet d k = some v) : sizeV v < sizeFields d := by
  induction d with
  | nil => simp [dictGet] at h
  | cons hd tl ih =>
    obtain ⟨k', v'⟩ := hd
    simp only [dictGet] at h
    by_cases hk : k' = k
    · simp [hk] at h
      subst h
      simp [sizeFields]
      omega
    · simp [hk] at h
      have := ih h
      simp [sizeFields]
      omega

theorem dictGet_sizeVO (d : List (String × Value)) (k : String) :
    sizeVO (dictGet d k) ≤ sizeFields d := by
  cases h : dictGet d k with
  | none => simp [sizeVO]
  | some v => exact Nat.le_of_lt (by simpa [sizeVO] using dictGet_sizeV h)

/-! ### Python `__eq__` on values

`AbstractConfigValue.__eq__` compares value type and unwrapped contents;
`SimpleConfigObject.__eq__` uses `map_equals` (same keys, then pairwise
equality of values).  Origin, resolve status and `ignores_fallbacks` are
deliberately *not* part of equality (comments in the source).  The source's
`map_equals` compares `a.keys() != b.keys()`, whose order in a Python dict is
implementation-defined; it is modelled as key-set equality (the Java
`keySet().equals` this transliterates). -/

def sameKeySet (a b : List String) : Bool :=
  a.all (fun k => b.contains k) && b.all (fun k => a.contains k)

mutual

def pyEq : Value → Value → Bool
  | .lit a, .lit b => a == b
  | .str a, .str b => a == b
  | .substitution a, .substitution b => a == b
  | .delayedMerge s, .delayedMerge t => pyEqList s t
  | .obj f _ _, .obj g _ _ =>
    sameKeySet (f.map Prod.fst) (g.map Prod.fst) &&
      mapEqualsKeys f g (f.map Prod.fst)
  | _, _ => false
termination_by a _ => (sizeV a, 0)
decreasing_by
  all_goals apply Prod.Lex.left
  all_goals simp only [sizeV, sizeVList, sizeFields]
  all_goals omega

def pyEqList : List Value → List Value → Bool
  | [], [] => true
  | a :: s, b :: t => pyEq a b && pyEqList s t
  | _, _ => false
termination_by s _ => (sizeVList s, 0)
decreasing_by
  all_goals apply Prod.Lex.left
  all_goals simp only [sizeV, sizeVList, sizeFields]
  all_goals omega

def mapEqualsKeys (f g : List (String × Value)) : List String → Bool
  | [] => true
  | k :: rest => pyEqO (dictGet f k) (dictGet g k) && mapEqualsKeys f g rest
termination_by keys => (sizeFields f, keys.length + 1)
decreasing_by
  all_goals simp_wf
  all_goals first
    | (rcases Nat.lt_or_ge (sizeVO (dictGet f k)) (sizeFields f) with h | h
       · exact Prod.Lex.left _ _ h
       · have h2 := dictGet_sizeVO f k
         have h3 : sizeVO (dictGet f k) = sizeFields f := Nat.le_antisymm h2 h
         rw [h3]
         exact Prod.Lex.right _ (by omega))
    | exact Prod.Lex.right _ (by omega)

def pyEqO : Option Value → Option Value → Bool
  | some a, some b => pyEq a b
  | none, none => true
  | _, _ => false
termination_by a _ => (sizeVO a, 1)
decreasing_by
  all_goals apply Prod.Lex.right
  all_goals omega

end

/-! ### The merge algebra: `with_fallback` and `merged_with_object`

From `src/hocon/impl/AbstractConfigValue.py` (`with_fallback`,
`merged_with_the_unmergeable`, `delay_merge`, `merged_with_object`,
`merged_with_non_object`, `with_fallbacks_ignored`, `ignores_fallbacks`)
and `src/hocon/impl/SimpleConfigObject.py` (`merged_with_object`,
`with_fallbacks_ignored`, `new_copy`). -/

/-- `AbstractConfigValue.ignores_fallbacks`: the base class returns
`resolve_status() == ResolveStatus.resolved`; `SimpleConfigObject` stores the
boolean as a field. -/
def Value.ignoresFallbacksV : Value → Bool
  | .obj _ _ i => i
  | v => decide (v.resolveStatus = .resolved)

/-- The `Unmergeable` tag: per its docstring these are the values that never
appear in a resolved tree — substitutions (`ConfigSubstitution` /
`ConfigReference`) and delayed merges (`ConfigDelayedMerge`). -/
def Value.isUnmergeable : Value → Bool
  | .substitution _ => true
  | .delayedMerge _ => true
  | _ => false

/-- `Unmergeable.unmerged_values`.  Modelled from the spec: a delayed merge
carries its stack; a substitution is a one-element stack (`ConfigReference`
and `ConfigDelayedMerge` are not among the sources). -/
def Value.unmergedValues : Value → List Value
  | .delayedMerge s => s
  | v => [v]

/-- `AbstractConfigValue.merged_with_the_unmergeable`: build a delayed merge
from `stack = [self]` followed by the fallback's unmerged values (origin
merging dropped; origins are not modelled). -/
def mergedWithTheUnmergeable (self fallback : Value) : Value :=
  .delayedMerge ([self] ++ fallback.unmergedValues)

/-- `AbstractConfigValue.delay_merge`: `stack ++ [fallback]`. -/
def delayMerge (stack : List Value) (fallback : Value) : Value :=
  .delayedMerge (stack ++ [fallback])

/-- `SimpleConfigObject.new_copy`: the source constructs
`SimpleConfigObject(origin=..., status=..., ignores_fallbacks=...)` *without*
the required `value` argument (the Java original passes the receiver's map).
The omitted map is modelled as the null map, which the constructor
rejects. -/
def SimpleConfigObject.newCopy (status : ResolveStatus) (ignoresFallbacks : Bool) :
    Except String SimpleConfigObject :=
  mkSimpleConfigObject none (some status) ignoresFallbacks

/-- `with_fallbacks_ignored`: `SimpleConfigObject`'s override returns `self`
when already ignoring, else `new_copy` with the same status and
`ignores_fallbacks=True`; the `AbstractConfigValue` base raises
`BugOrBroken` when not ignoring. -/
def withFallbacksIgnored (self : Value) : Except String Value :=
  match self with
  | .obj f r i =>
    if i then .ok (.obj f r i)
    else
      (SimpleConfigObject.newCopy
        (SimpleConfigObject.resolveStatus ⟨f, r, i⟩) true).map
        SimpleConfigObject.toValue
  | v =>
    if v.ignoresFallbacksV then .ok v
    else .error "value class does not implement forced fallback-ignoring"

/-- `AbstractConfigValue.merged_with_non_object`: a resolved receiver switches
to fallback-ignoring mode; an unresolved one delays the merge. -/
def mergedWithNonObject (stack : List Value) (self fallback : Value) :
    Except String Value :=
  if self.resolveStatus = .resolved then withFallbacksIgnored self
  else .ok (delayMerge stack fallback)

/-- Python `set(self.keys() + fallback.keys())`: the distinct keys.  A Python
set's iteration order is hash-table dependent (implementation-defined); the
model fixes the first-occurrence order.  No settled claim depends on this
order: the only quantities read off the set loop in `merged_with_object`
(the merged dict's contents, `changed`, `all_resolved`) are
order-independent. -/
def pySet : List String → List String
  | [] => []
  | k :: rest => k :: pySet (rest.filter (fun k' => k' ≠ k))
termination_by l => l.length
decreasing_by
  simp_wf
  have := List.length_filter_le (fun k' => !decide (k' = k)) rest
  omega

mutual

/-- `AbstractConfigValue.with_fallback` (the object case dispatches to
`SimpleConfigObject.merged_with_object`; `to_fallback_value` is the identity
on values and objects). -/
def withFallback (self other : Value) : Except String Value :=
  if self.ignoresFallbacksV then .ok self
  else if other.isUnmergeable then .ok (mergedWithTheUnmergeable self other)
  else
    match other with
    | .obj gf gr gi =>
      match self with
      | .obj f r i =>
        (mergedWithObject ⟨f, r, i⟩ (.obj gf gr gi)).map
          SimpleConfigObject.toValue
      | v => mergedWithNonObject [v] v (.obj gf gr gi)
    | o => mergedWithNonObject [self] self o
termination_by (sizeV self + sizeV other, 2)
decreasing_by
  all_goals apply Prod.Lex.right
  all_goals omega

/-- `SimpleConfigObject.merged_with_object`.  Note the final branches: when
nothing `changed` but the new resolve status or ignores-fallbacks flag
differs, the source calls `new_copy` (which omits the required `value`
argument and therefore cannot construct an object); only when both also
agree is `self` returned.  (`self.resolve_status` and `self.ignoresFallbacks`
in the source are normalized to the method call and the snake_case
field.) -/
def mergedWithObject (o : SimpleConfigObject) (fallback : Value) :
    Except String SimpleConfigObject :=
  if o.ignoresFallbacks then
    .error "method should not have been called with ignoresFallbacks=true"
  else
    match fallback with
    | .obj gf _ gi => do
      let (merged, changed, allResolved) ←
        mergeLoop o.value gf (pySet (o.value.map Prod.fst ++ gf.map Prod.fst))
      let newResolveStatus := ResolveStatus.fromBoolean allResolved
      let newIgnoresFallbacks := gi
      if changed then
        mkSimpleConfigObject (some merged) (some newResolveStatus)
          newIgnoresFallbacks
      else if newResolveStatus ≠ o.resolveStatus ∨
          newIgnoresFallbacks ≠ o.ignoresFallbacks then
        SimpleConfigObject.newCopy newResolveStatus newIgnoresFallbacks
      else
        .ok o
    | _ => .error "should not be reached (merging non-SimpleConfigObject)"
termination_by (1 + sizeFields o.value + sizeV fallback, 1)
decreasing_by
  apply Prod.Lex.left
  simp only [sizeV]
  omega

/-- The `for key in all_keys` loop of `merged_with_object`: returns the merged
bindings (in iteration order) together with the `changed` and `all_resolved`
flags.  `first != kept` is Python `__eq__` (`pyEqO`); a key on neither side
would leave `kept = None` and crash on `kept.resolve_status()`. -/
def mergeLoop (f g : List (String × Value)) :
    List String → Except String (List (String × Value) × Bool × Bool)
  | [] => .ok ([], false, true)
  | k :: rest =>
    match h1 : dictGet f k, h2 : dictGet g k with
    | none, none => .error "NoneType object has no attribute resolve_status"
    | none, some second => do
      let (m, c, a) ← mergeLoop f g rest
      .ok ((k, second) :: m, c || !(pyEqO none (some second)),
        a && decide (second.resolveStatus = .resolved))
    | some first, none => do
      let (m, c, a) ← mergeLoop f g rest
      .ok ((k, first) :: m, c || !(pyEqO (some first) (some first)),
        a && decide (first.resolveStatus = .resolved))
    | some first, some second => do
      let kept ← withFallback first second
      let (m, c, a) ← mergeLoop f g rest
      .ok ((k, kept) :: m, c || !(pyEqO (some first) (some kept)),
        a && decide (kept.resolveStatus = .resolved))
termination_by keys => (sizeFields f + sizeFields g, keys.length)
decreasing_by
  all_goals simp_wf
  · apply Prod.Lex.right; omega
  · apply Prod.Lex.right; omega
  · apply Prod.Lex.left
    have hf := dictGet_sizeV h1
    have hg := dictGet_sizeV h2
    omega
  · apply Prod.Lex.right; omega

end

/-! ### `modify`, `resolve_substitutions`, `relativized`

`SimpleConfigObject.modify` takes a modifier object whose `modify_child(k, v)`
may return a replacement value or `None` (remove); it is modelled as a total
function `String → Option Value → Option Value` (claim C3's premise that the
calls return normally).  Note the source's guard
`if modified != v and changes is not None: changes = {k: modified}`:
`changes` starts as `None` and is assigned only under `changes is not None`. -/

/-- The first loop of `modify`: thread the `changes` accumulator over the
keys.  `modified != v` is Python `__eq__` (`pyEqO`). -/
def modifyChangesLoop (d : List (String × Value))
    (m : String → Option Value → Option Value) :
    List String → Option (List (String × Option Value)) →
      Option (List (String × Option Value))
  | [], changes => changes
  | k :: rest, changes =>
    let v := dictGet d k
    let modified := m k v
    let changes' :=
      if !(pyEqO modified v) && changes.isSome then some [(k, modified)]
      else changes
    modifyChangesLoop d m rest changes'

/-- The second loop of `modify` (only reached when `changes` is not `None`):
rebuild the map applying the changes, tracking whether an unresolved child
was seen.  A key of `self.keys()` missing from the map would crash on
`new_value.resolve_status`. -/
def modifySecondLoop (d : List (String × Value))
    (ch : List (String × Option Value)) :
    List String → Except String (List (String × Value) × Bool)
  | [] => .ok ([], false)
  | k :: rest => do
    let (modified, saw) ← modifySecondLoop d ch rest
    match dictGet ch k with
    | some (some newValue) =>
      .ok ((k, newValue) :: modified,
        saw || decide (newValue.resolveStatus = .unresolved))
    | some none => .ok (modified, saw)
    | none =>
      match dictGet d k with
      | some newValue =>
        .ok ((k, newValue) :: modified,
          saw || decide (newValue.resolveStatus = .unresolved))
      | none => .error "NoneType object has no attribute resolve_status"

/-- `SimpleConfigObject.modify`. -/
def SimpleConfigObject.modify (o : SimpleConfigObject)
    (m : String → Option Value → Option Value) :
    Except String SimpleConfigObject :=
  match modifyChangesLoop o.value m (o.value.map Prod.fst) none with
  | none => .ok o
  | some ch => do
    let (modified, sawUnresolved) ←
      modifySecondLoop o.value ch (o.value.map Prod.fst)
    mkSimpleConfigObject (some modified)
      (some (ResolveStatus.fromBoolean (!sawUnresolved))) o.ignoresFallbacks

/-- `SimpleConfigObject.resolve_substitutions`: return `self` when resolved,
else `modify` with the context-driven modifier class `M`.  The modifier built
from the `ResolveContext` is abstracted as a function parameter (its result
is never used by `modify`). -/
def SimpleConfigObject.resolveSubstitutions (o : SimpleConfigObject)
    (contextModifier : String → Option Value → Option Value) :
    Except String SimpleConfigObject :=
  if o.resolveStatus = .resolved then .ok o
  else o.modify contextModifier

/-- `SimpleConfigObject.relativized`: `modify` with the modifier
`lambda key, v: v.relativized(prefix)`, abstracted as a function parameter
(its result is never used by `modify`). -/
def SimpleConfigObject.relativized (o : SimpleConfigObject)
    (childRelativized : String → Option Value → Option Value) :
    Except String SimpleConfigObject :=
  o.modify childRelativized

/-! ### `Path` and `PathBuilder`

`src/hocon/impl/Path.py`: a path is a non-empty linked list
`(first, remainder)` with `remainder` possibly `None`.
`src/hocon/impl/PathBuilder.py`: keys are kept on a stack; `result()` pops
them building the linked path back-to-front (an empty stack yields `None`). -/

inductive Path where
  | mk (first : String) (remainder : Option Path)

def Path.first : Path → String
  | .mk f _ => f

def Path.remainder : Path → Option Path
  | .mk _ r => r

/-- The keys of a path, front to back. -/
def Path.toList : Path → List String
  | .mk f none => [f]
  | .mk f (some r) => f :: r.toList

/-- `PathBuilder.result`: `while len(self._keys) != 0: key = self._keys.pop();
remainder = Path(key, remainder)` — fold over the reversed key list. -/
def pathBuilderResult (keys : List String) : Option Path :=
  keys.reverse.foldl (fun remainder key => some (Path.mk key remainder)) none

/-- The linked path holding exactly `keys` (recursive form of
`pathBuilderResult`, see `pathBuilderResult_eq`). -/
def pathOfList : List String → Option Path
  | [] => none
  | k :: rest => some (Path.mk k (pathOfList rest))

theorem pathBuilderResult_eq (keys : List String) :
    pathBuilderResult keys = pathOfList keys := by
  induction keys with
  | nil => rfl
  | cons k rest ih =>
    simp only [pathBuilderResult, List.reverse_cons, List.foldl_append,
      List.foldl_cons, List.foldl_nil] at *
    simp [pathOfList, ← ih]

/-- `Path.of_elements`: note that when there is more than one element the
builder re-appends *all* elements (`for el in elements`), including
`elements[0]` which is also used as `first`. -/
def Path.ofElements (elements : List String) : Except String Path :=
  match elements with
  | [] => .error "empty path"
  | e :: rest =>
    let remainder :=
      if (e :: rest).length > 1 then pathBuilderResult (e :: rest) else none
    .ok (Path.mk e remainder)

/-- The keys collected by `Path.parent`'s loop: `first` of every node that
still has a remainder (all keys but the last). -/
def Path.initKeys : Path → List String
  | .mk _ none => []
  | .mk f (some r) => f :: r.initKeys

/-- `Path.parent`: `None` for a singleton, else the path of all keys but the
last, built through `PathBuilder`. -/
def Path.parent (p : Path) : Option Path :=
  match p with
  | .mk _ none => none
  | .mk _ (some _) => pathBuilderResult p.initKeys

/-- `Path.last`: walk to the last node. -/
def Path.last : Path → String
  | .mk f none => f
  | .mk _ (some r) => r.last

/-- `Path.length`. -/
def Path.length : Path → Nat
  | .mk _ none => 1
  | .mk _ (some r) => 1 + r.length

/-- Modelled from the spec: §3 lists appending among the Path operations
(`p.parent.append(p.last)`) but no `append` is among the sources.  Appending
one key is modelled through `PathBuilder` the same way `Path.prepend` builds
paths: push the receiver's keys, push the new key, take the result. -/
def Path.appendKey (p : Path) (k : String) : Option Path :=
  pathBuilderResult (p.toList ++ [k])

/-! ### `without_path`, `with_key_value`, `peek_path` -/

/-- `peek_path_without_context` (`AbstractConfigObject`), with
`attempt_peek_with_partial_resolve` = `value.get`: walk the path, failing to
`None` when a step is missing or a non-object blocks descent. -/
def peekPathWithoutContext (o : SimpleConfigObject) : Path → Option Value
  | .mk k none => dictGet o.value k
  | .mk k (some rest) =>
    match dictGet o.value k with
    | some (.obj f r i) => peekPathWithoutContext ⟨f, r, i⟩ rest
    | _ => none

/-- The `smaller` loop of `without_path`: `for old in value.items(): if
old[0] != key: smaller[old[0]] = old[1]` — keep every binding whose key
differs, in order. -/
def removeKey (d : List (String × Value)) (k : String) :
    List (String × Value) :=
  match d with
  | [] => []
  | (k', v) :: rest =>
    if k' ≠ k then (k', v) :: removeKey rest k else removeKey rest k

/-- `SimpleConfigObject.without_path`.  The source is an `if`/`elif`/`else`
chain on `v = value.get(key)` and `next = path.remainder()`: when `v` is an
object and the path continues, descend and rebuild; when the path continues
but `v` is missing or not an object, or the final key is absent, return
`self`; at a present final key, drop that key's binding. -/
def SimpleConfigObject.withoutPath (o : SimpleConfigObject) :
    Path → Except String SimpleConfigObject
  | .mk k none =>
    match dictGet o.value k with
    | none => .ok o
    | some _ =>
      let smaller := removeKey o.value k
      mkSimpleConfigObject (some smaller)
        (some (ResolveStatus.fromValues (smaller.map Prod.snd)))
        o.ignoresFallbacks
  | .mk k (some rest) =>
    match dictGet o.value k with
    | some (.obj f r i) => do
      let v ← SimpleConfigObject.withoutPath ⟨f, r, i⟩ rest
      let updated := dictSet o.value k v.toValue
      mkSimpleConfigObject (some updated)
        (some (ResolveStatus.fromValues (updated.map Prod.snd)))
        o.ignoresFallbacks
    | _ => .ok o

/-- `SimpleConfigObject.with_key_value` (`withValue(key, v)` in Java): null
values are rejected; an empty map becomes the singleton, else copy and set. -/
def SimpleConfigObject.withKeyValue (o : SimpleConfigObject) (k : String)
    (v : Option Value) : Except String SimpleConfigObject :=
  match v with
  | none => .error "Trying to store null ConfigValue in a ConfigObject"
  | some v =>
    let newMap := if o.value.isEmpty then [(k, v)] else dictSet o.value k v
    mkSimpleConfigObject (some newMap)
      (some (ResolveStatus.fromValues (newMap.map Prod.snd)))
      o.ignoresFallbacks

/-! ### Tokens and the tokenizer's whitespace saver

From `src/hocon/impl/tokens.py`, `Token.py`, `TokenType.py` and
`src/hocon/impl/tokenizer.py`.  Python is untyped: `tokens.new_string`
returns a bare `ConfigString` (an `AbstractConfigValue`, not a `Token`
subclass) which then flows in token position; the stream element type
therefore has a constructor `configValue` for such escaped values, distinct
from the `value` constructor that models the `Value` token class.  Origins
carried by tokens are dropped (they are excluded from `Token.__eq__` via
`_key`). -/

inductive Token where
  | value (v : Value)
  | line
  | unquotedText (s : String)
  | problem (what message : String) (suggestQuotes : Bool)
  | comment (text : String)
  | substitution (optional : Bool) (expression : List Token)
  | start
  | stop
  | comma
  | equals
  | colon
  | openCurly
  | closeCurly
  | openSquare
  | closeSquare
  | plusEquals
  | configValue (v : Value)

/-- `tokens.is_value`: `isinstance(token, Value)` — only the `Value` token
class, not a bare config value. -/
def Token.isValue : Token → Bool
  | .value _ => true
  | _ => false

/-- `tokens.is_unquoted_text`. -/
def Token.isUnquotedText : Token → Bool
  | .unquotedText _ => true
  | _ => false

/-- `tokens.is_substitution`. -/
def Token.isSubstitution : Token → Bool
  | .substitution _ _ => true
  | _ => false

/-- `tokenizer.is_simple_value`: substitution, unquoted text, or value. -/
def isSimpleValue (t : Token) : Bool :=
  t.isSubstitution || t.isUnquotedText || t.isValue

/-- `tokens.new_value`: wrap a config value in a `Value` token. -/
def newValue (v : Value) : Token :=
  .value v

/-- `tokens.new_string`: the source returns
`ConfigString(origin=origin, value=value)` directly — the bare config value,
*not* `new_value(ConfigString(...))` as the other `new_*` constructors do. -/
def newString (s : String) : Token :=
  .configValue (.str s)

/-- `tokens.new_boolean` and friends wrap through `new_value` (shown for
contrast with `new_string`; booleans are among the `lit` leaves). -/
def newBoolean (id : Nat) : Token :=
  newValue (.lit id)

/-- `WhitespaceSaver`'s state: the accumulated whitespace string and the
was-the-last-token-a-simple-value flag. -/
structure WhitespaceSaver where
  whitespace : String
  lastTokenWasSimpleValue : Bool

/-- `WhitespaceSaver.add`: accumulate a char only when the last token was a
simple value. -/
def WhitespaceSaver.add (s : WhitespaceSaver) (c : Char) : WhitespaceSaver :=
  if s.lastTokenWasSimpleValue then { s with whitespace := s.whitespace.push c }
  else s

/-- `next_char_after_whitespace` calls `saver.add(c)` once per skipped
non-newline whitespace character; a whole run is the fold of `add`. -/
def WhitespaceSaver.addRun (s : WhitespaceSaver) (run : String) :
    WhitespaceSaver :=
  run.data.foldl WhitespaceSaver.add s

/-- `WhitespaceSaver.next_is_not_a_simple_value`: drop saved whitespace. -/
def WhitespaceSaver.nextIsNotASimpleValue (_ : WhitespaceSaver) :
    WhitespaceSaver :=
  ⟨"", false⟩

/-- `WhitespaceSaver.next_is_a_simple_value`: if the previous token was also
a simple value and whitespace was saved, emit it as an unquoted-text token
and reset. -/
def WhitespaceSaver.nextIsASimpleValue (s : WhitespaceSaver) :
    WhitespaceSaver × Option Token :=
  if s.lastTokenWasSimpleValue then
    if s.whitespace.length > 0 then
      ({ s with whitespace := "" }, some (.unquotedText s.whitespace))
    else (s, none)
  else (⟨"", true⟩, none)

/-- `WhitespaceSaver.check`. -/
def WhitespaceSaver.check (s : WhitespaceSaver) (t : Token) :
    WhitespaceSaver × Option Token :=
  if isSimpleValue t then s.nextIsASimpleValue
  else (s.nextIsNotASimpleValue, none)

/-- One `queue_next_token` step: feed the whitespace run preceding the pulled
token to the saver, then `check` the token, queueing the materialized
whitespace token (if any) before the token itself. -/
def queueStep (s : WhitespaceSaver) (run : String) (t : Token) :
    WhitespaceSaver × List Token :=
  let s1 := s.addRun run
  let (s2, w) := s1.check t
  (s2, w.toList ++ [t])

/-- Drive the saver over a stream presented as (preceding non-newline
whitespace run, token) pairs, concatenating the queued tokens. -/
def runSaverAux (s : WhitespaceSaver) :
    List (String × Token) → List Token
  | [] => []
  | (run, t) :: rest =>
    let (s', out) := queueStep s run t
    out ++ runSaverAux s' rest

/-- The token sequence the tokenizer queues for a stream of (whitespace run,
token) pairs, starting from the fresh saver `TokenIterator` constructs. -/
def runSaver (pairs : List (String × Token)) : List Token :=
  runSaverAux ⟨"", false⟩ pairs

/-- The whitespace policy exactly as the spec words it (§4.1): between two
simple values, a non-empty whitespace run is materialized as an
unquoted-text token carrying the whitespace; otherwise it is discarded.
`prevSimple` says whether the previous token was a simple value (initially
there is none). -/
def whitespacePolicySpec (prevSimple : Bool) :
    List (String × Token) → List Token
  | [] => []
  | (run, t) :: rest =>
    (if prevSimple && isSimpleValue t && !(run = "") then
      [Token.unquotedText run]
    else []) ++ t :: whitespacePolicySpec (isSimpleValue t) rest

/-! ### Exception message rendering

`src/hocon/exceptions.py`: `ConfigException.__init__` renders
`origin.description() + ': ' + message` when an origin is given.  The origin
record itself (`SimpleConfigOrigin`) is not among the sources. -/

/-- Modelled from the spec: an origin is a record of description, optional
line number and comments (§3); `SimpleConfigOrigin` is not among the
sources.  Comments are irrelevant to message rendering and omitted. -/
structure ConfigOrigin where
  description : String
  lineNumber : Option Nat

/-- `ConfigException.__init__`: the stored message is
`message if origin is None else origin.description() + ': ' + message`. -/
def configExceptionMessage (message : String) (origin : Option ConfigOrigin) :
    String :=
  match origin with
  | none => message
  | some o => o.description ++ ": " ++ message

/-- The message format claimed by the spec (§6 Error reporting):
`"{description}: {line}: {message}"`. -/
def specErrorFormat (origin : ConfigOrigin) (message : String) : String :=
  origin.description ++ ": " ++
    (match origin.lineNumber with
      | some n => toString n
      | none => "") ++ ": " ++ message

/-! ### Basic lemmas -/

theorem fromValues_eq_resolved_iff (l : List Value) :
    ResolveStatus.fromValues l = .resolved ↔
      ∀ v ∈ l, v.resolveStatus = .resolved := by
  induction l with
  | nil => simp [ResolveStatus.fromValues]
  | cons v rest ih =>
    simp only [ResolveStatus.fromValues, List.mem_cons]
    by_cases h : v.resolveStatus = .unresolved
    · rw [if_pos h]
      constructor
      · intro habs; cases habs
      · intro hall
        have hv := hall v (Or.inl rfl)
        rw [hv] at h
        cases h
    · rw [if_neg h]
      have hres : v.resolveStatus = .resolved := by
        cases hv : v.resolveStatus
        · exact absurd hv h
        · rfl
      rw [ih]
      constructor
      · intro hall w hw
        rcases hw with rfl | hw
        · exact hres
        · exact hall w hw
      · intro hall w hw
        exact hall w (Or.inr hw)

/-! ### Claim C2 -/

/-- C2: the `SimpleConfigObject` constructor raises `BugOrBroken` whenever
the `status` argument disagrees with `ResolveStatus.from_values` applied to
the children, and every object it does build satisfies the invariant that
its resolve status is `resolved` iff every child's is. -/
theorem constructor_enforces_resolve_invariant :
    (∀ (m : List (String × Value)) (st : Option ResolveStatus) (ign : Bool)
        (o : SimpleConfigObject),
      mkSimpleConfigObject (some m) st ign = .ok o →
        (o.resolveStatus = .resolved ↔
          ∀ v ∈ o.value.map Prod.snd, v.resolveStatus = .resolved)) ∧
    (∀ (m : List (String × Value)) (st : Option ResolveStatus) (ign : Bool),
      st ≠ some (ResolveStatus.fromValues (m.map Prod.snd)) →
        mkSimpleConfigObject (some m) st ign = .error "Wrong resolved status") := by
  constructor
  · intro m st ign o hok
    simp only [mkSimpleConfigObject] at hok
    by_cases hst : st = some (ResolveStatus.fromValues (m.map Prod.snd))
    · subst hst
      rw [if_pos rfl] at hok
      have ho := Except.ok.inj hok
      subst ho
      have hrs : SimpleConfigObject.resolveStatus
          ⟨m, decide (some (ResolveStatus.fromValues (m.map Prod.snd))
            = some ResolveStatus.resolved), ign⟩
          = ResolveStatus.fromValues (m.map Prod.snd) := by
        cases hv : ResolveStatus.fromValues (m.map Prod.snd) <;>
          simp [SimpleConfigObject.resolveStatus, ResolveStatus.fromBoolean, hv]
      rw [hrs]
      exact fromValues_eq_resolved_iff (m.map Prod.snd)
    · rw [if_neg hst] at hok
      cases hok
  · intro m st ign hne
    simp [mkSimpleConfigObject, hne]

/-- Witness for C2 at a concrete constructor call: the object built from
`{a: lit 0}` with status `resolved` satisfies the invariant, and passing
status `None` is rejected. -/
theorem constructor_enforces_resolve_invariant_witness :
    ((SimpleConfigObject.mk [("a", Value.lit 0)] true false).resolveStatus
        = .resolved ↔
      ∀ v ∈ [Value.lit 0], v.resolveStatus = .resolved) ∧
    mkSimpleConfigObject (some [("a", Value.lit 0)]) none false
      = .error "Wrong resolved status" :=
  ⟨constructor_enforces_resolve_invariant.1 [("a", Value.lit 0)]
      (some .resolved) false ⟨[("a", Value.lit 0)], true, false⟩ rfl,
    constructor_enforces_resolve_invariant.2 [("a", Value.lit 0)] none false
      (by decide)⟩

/-! ### Claim C3 -/

theorem modifyChangesLoop_none (d : List (String × Value))
    (m : String → Option Value → Option Value) (keys : List String) :
    modifyChangesLoop d m keys none = none := by
  induction keys with
  | nil => rfl
  | cons k rest ih =>
    simp only [modifyChangesLoop, Option.isSome_none, Bool.and_false,
      Bool.false_eq_true, if_false]
    exact ih

/-- C3: `modify` returns the receiver for every modifier whose calls return
normally — the `changes` map is assigned only under a `changes is not None`
guard that never holds — and consequently `resolve_substitutions` and
`relativized` always return the receiver. -/
theorem modify_returns_receiver :
    (∀ (o : SimpleConfigObject) (m : String → Option Value → Option Value),
      o.modify m = .ok o) ∧
    (∀ (o : SimpleConfigObject) (m : String → Option Value → Option Value),
      o.resolveSubstitutions m = .ok o) ∧
    (∀ (o : SimpleConfigObject) (m : String → Option Value → Option Value),
      o.relativized m = .ok o) := by
  have hmod : ∀ (o : SimpleConfigObject)
      (m : String → Option Value → Option Value), o.modify m = .ok o := by
    intro o m
    simp [SimpleConfigObject.modify, modifyChangesLoop_none]
  refine ⟨hmod, ?_, hmod⟩
  intro o m
  simp only [SimpleConfigObject.resolveSubstitutions]
  by_cases h : o.resolveStatus = .resolved
  · simp [h]
  · simp [h, hmod]

/-! ### Claim C10 -/

/-- C10: `tokens.new_string` returns the bare `ConfigString` value rather
than a `Value` token wrapping it, so `tokens.is_value` is false on the token
produced from a quoted string and `is_simple_value` does not classify it as
a simple value. -/
theorem new_string_is_not_value_token (s : String) :
    newString s = Token.configValue (Value.str s) ∧
    Token.isValue (newString s) = false ∧
    isSimpleValue (newString s) = false :=
  ⟨rfl, rfl, rfl⟩

/-! ### Path lemmas and claims C9, C6 -/

theorem pathOfList_toList :
    ∀ (l : List String) (q : Path), pathOfList l = some q → q.toList = l
  | [], _, h => by cases h
  | [k], q, h => by
    have h1 : pathOfList [k] = some (Path.mk k none) := rfl
    rw [h1, Option.some_inj] at h
    subst h
    rfl
  | k :: r :: rs, q, h => by
    have h1 : pathOfList (k :: r :: rs)
        = some (Path.mk k (some (Path.mk r (pathOfList rs)))) := rfl
    rw [h1, Option.some_inj] at h
    subst h
    have hrec := pathOfList_toList (r :: rs) (Path.mk r (pathOfList rs)) rfl
    have h2 : (Path.mk k (some (Path.mk r (pathOfList rs)))).toList
        = k :: (Path.mk r (pathOfList rs)).toList := rfl
    rw [h2, hrec]

theorem pathOfList_of_toList (p : Path) : pathOfList p.toList = some p := by
  match p with
  | .mk f none => simp [Path.toList, pathOfList]
  | .mk f (some r) =>
    simp only [Path.toList, pathOfList, Option.some_inj]
    rw [pathOfList_of_toList r]

theorem path_length_toList (p : Path) : p.length = p.toList.length := by
  match p with
  | .mk f none => simp [Path.length, Path.toList]
  | .mk f (some r) =>
    simp only [Path.length, Path.toList, path_length_toList r, List.length_cons]
    omega

theorem initKeys_append_last (p : Path) :
    p.initKeys ++ [p.last] = p.toList := by
  match p with
  | .mk f none => simp [Path.initKeys, Path.last, Path.toList]
  | .mk f (some r) =>
    simp only [Path.initKeys, Path.last, Path.toList, List.cons_append,
      List.cons.injEq, true_and]
    exact initKeys_append_last r

/-- C9: for two or more elements, `Path.of_elements` builds a path of length
`n + 1` whose first key is duplicated, because the builder re-appends all
`n` elements (including the first) as the remainder. -/
theorem of_elements_duplicates_first (e : String) (rest : List String)
    (h : rest ≠ []) :
    ∃ p, Path.ofElements (e :: rest) = .ok p ∧
      p.toList = e :: e :: rest ∧
      p.length = (e :: rest).length + 1 := by
  have hlen : (e :: rest).length > 1 := by
    cases rest with
    | nil => exact absurd rfl h
    | cons r rs => simp
  refine ⟨Path.mk e (pathBuilderResult (e :: rest)), ?_, ?_, ?_⟩
  · show Except.ok (Path.mk e (if (e :: rest).length > 1 then
        pathBuilderResult (e :: rest) else none))
      = Except.ok (Path.mk e (pathBuilderResult (e :: rest)))
    rw [if_pos hlen]
  · rw [pathBuilderResult_eq]
    have : pathOfList (e :: rest) = some (Path.mk e (pathOfList rest)) := rfl
    rw [this]
    simp only [Path.toList]
    rw [pathOfList_toList (e :: rest) (Path.mk e (pathOfList rest)) rfl]
  · rw [path_length_toList]
    rw [pathBuilderResult_eq]
    have : pathOfList (e :: rest) = some (Path.mk e (pathOfList rest)) := rfl
    rw [this]
    simp only [Path.toList]
    rw [pathOfList_toList (e :: rest) (Path.mk e (pathOfList rest)) rfl]
    simp

/-- Witness for C9: `of_elements("a", "b")` yields the three-key path
`a.a.b`. -/
theorem of_elements_duplicates_first_witness :
    ∃ p, Path.ofElements ["a", "b"] = .ok p ∧
      p.toList = ["a", "a", "b"] ∧
      p.length = 3 :=
  of_elements_duplicates_first "a" ["b"] (by decide)

/-- C6: for a non-singleton path, appending the last key to the parent gives
back the path (`append` modelled from the spec through `PathBuilder`). -/
theorem parent_append_last_roundtrip (p : Path) (h : 2 ≤ p.length) :
    ∃ q, p.parent = some q ∧ q.appendKey p.last = some p := by
  match p with
  | .mk f none => simp [Path.length] at h
  | .mk f (some r) =>
    refine ⟨Path.mk f (pathOfList r.initKeys), ?_, ?_⟩
    · simp only [Path.parent, pathBuilderResult_eq, Path.initKeys, pathOfList]
    · simp only [Path.appendKey, pathBuilderResult_eq]
      have htl : (Path.mk f (pathOfList r.initKeys)).toList = f :: r.initKeys := by
        cases hik : r.initKeys with
        | nil => simp [hik, pathOfList, Path.toList]
        | cons a as =>
          simp only [pathOfList, Path.toList]
          rw [pathOfList_toList (a :: as) (Path.mk a (pathOfList as)) rfl]
      rw [htl]
      have hlast : (Path.mk f (some r)).last = r.last := rfl
      rw [hlast]
      have : (f :: r.initKeys) ++ [r.last] = f :: r.toList := by
        simp [initKeys_append_last r]
      rw [this]
      have : pathOfList (f :: r.toList) = some (Path.mk f (pathOfList r.toList)) := rfl
      rw [this, pathOfList_of_toList r]

/-- Witness for C6 at the concrete path `a.b`. -/
theorem parent_append_last_roundtrip_witness :
    ∃ q, (Path.mk "a" (some (Path.mk "b" none))).parent = some q ∧
      q.appendKey (Path.mk "a" (some (Path.mk "b" none))).last =
        some (Path.mk "a" (some (Path.mk "b" none))) :=
  parent_append_last_roundtrip (Path.mk "a" (some (Path.mk "b" none)))
    (by simp [Path.length])

/-! ### Claim C8 -/

/-- Counterexample to C8 as stated: with description `foo.conf`, line 12 and
message `bar`, the rendered message is `foo.conf: bar` — the origin's line
number is not interpolated, so the claimed
`"{description}: {line}: {message}"` format does not hold. -/
theorem exception_message_no_line_counterexample :
    configExceptionMessage "bar" (some ⟨"foo.conf", some 12⟩)
        = "foo.conf: bar" ∧
    configExceptionMessage "bar" (some ⟨"foo.conf", some 12⟩)
        ≠ specErrorFormat ⟨"foo.conf", some 12⟩ "bar" :=
  ⟨rfl, by decide⟩

/-- C8 (amended): a failure carrying an origin renders as
`"{description}: {message}"`; without an origin the message is unchanged.
The line number is not part of the rendering. -/
theorem exception_message_format (message : String) (o : ConfigOrigin) :
    configExceptionMessage message (some o)
        = o.description ++ ": " ++ message ∧
    configExceptionMessage message none = message :=
  ⟨rfl, rfl⟩

/-! ### Claim C1 -/

/-- C1 (code bug): merging `{a: <resolved leaf>}` (not ignoring fallbacks)
with the empty fallback object that ignores fallbacks leaves nothing
`changed`, so `merged_with_object` takes the `new_copy` branch (the
ignores-fallbacks flags differ); `new_copy` omits the required `value`
argument and the constructor rejects the null map — the merge raises instead
of returning the object with the union key set that the claim describes. -/
theorem merged_with_object_new_copy_crash :
    mergedWithObject ⟨[("a", Value.lit 0)], true, false⟩
        (Value.obj [] true true)
      = .error "creating config object with null map" := by
  simp [mergedWithObject, mergeLoop, pySet, dictGet, pyEqO, pyEq,
    SimpleConfigObject.resolveStatus, ResolveStatus.fromBoolean,
    SimpleConfigObject.newCopy, mkSimpleConfigObject,
    Value.resolveStatus, Bind.bind, Except.bind]

/-! ### Claim C7 -/

theorem foldl_add_false (cs : List Char) (w : String) :
    cs.foldl WhitespaceSaver.add ⟨w, false⟩ = ⟨w, false⟩ := by
  induction cs with
  | nil => rfl
  | cons c rest ih =>
    simp only [List.foldl_cons]
    have hadd : WhitespaceSaver.add ⟨w, false⟩ c = ⟨w, false⟩ := rfl
    rw [hadd, ih]

theorem foldl_add_true (cs : List Char) (w : String) :
    cs.foldl WhitespaceSaver.add ⟨w, true⟩ = ⟨⟨w.data ++ cs⟩, true⟩ := by
  induction cs generalizing w with
  | nil =>
    cases w
    simp
  | cons c rest ih =>
    obtain ⟨wl⟩ := w
    simp only [List.foldl_cons]
    have hadd : WhitespaceSaver.add ⟨⟨wl⟩, true⟩ c = ⟨⟨wl ++ [c]⟩, true⟩ := rfl
    rw [hadd, ih]
    simp

theorem string_ne_empty_length_pos (s : String) (h : ¬s = "") :
    s.length > 0 := by
  obtain ⟨l⟩ := s
  cases l with
  | nil => exact absurd rfl h
  | cons c cs => simp [String.length]

theorem runSaverAux_eq_spec (pairs : List (String × Token)) :
    ∀ b, runSaverAux ⟨"", b⟩ pairs = whitespacePolicySpec b pairs := by
  induction pairs with
  | nil => intro b; rfl
  | cons p rest ih =>
    intro b
    obtain ⟨run, t⟩ := p
    simp only [runSaverAux, queueStep, WhitespaceSaver.addRun]
    cases b with
    | false =>
      rw [foldl_add_false]
      by_cases hs : isSimpleValue t
      · have hchk : WhitespaceSaver.check ⟨"", false⟩ t = (⟨"", true⟩, none) := by
          simp [WhitespaceSaver.check, hs, WhitespaceSaver.nextIsASimpleValue]
        rw [hchk]
        simp only [Option.toList, List.nil_append, List.cons_append]
        rw [ih true]
        simp [whitespacePolicySpec, hs]
      · have hchk : WhitespaceSaver.check ⟨"", false⟩ t = (⟨"", false⟩, none) := by
          simp [WhitespaceSaver.check, hs, WhitespaceSaver.nextIsNotASimpleValue]
        rw [hchk]
        simp only [Option.toList, List.nil_append, List.cons_append]
        rw [ih false]
        simp [whitespacePolicySpec, hs]
    | true =>
      rw [foldl_add_true]
      by_cases hs : isSimpleValue t
      · by_cases hr : run = ""
        · subst hr
          have hchk : WhitespaceSaver.check ⟨"", true⟩ t = (⟨"", true⟩, none) := by
            simp [WhitespaceSaver.check, hs, WhitespaceSaver.nextIsASimpleValue]
          rw [show (⟨⟨"".data ++ "".data⟩, true⟩ : WhitespaceSaver)
              = ⟨"", true⟩ from rfl]
          rw [hchk]
          simp only [Option.toList, List.nil_append, List.cons_append]
          rw [ih true]
          simp [whitespacePolicySpec, hs]
        · have heta : (⟨⟨"".data ++ run.data⟩, true⟩ : WhitespaceSaver)
              = ⟨run, true⟩ := by
            cases run
            rfl
          rw [heta]
          have hchk : WhitespaceSaver.check ⟨run, true⟩ t
              = (⟨"", true⟩, some (.unquotedText run)) := by
            simp [WhitespaceSaver.check, hs, WhitespaceSaver.nextIsASimpleValue,
              string_ne_empty_length_pos run hr]
          rw [hchk]
          simp only [Option.toList, List.cons_append, List.nil_append]
          rw [ih true]
          simp [whitespacePolicySpec, hs, hr]
      · have heta : (⟨⟨"".data ++ run.data⟩, true⟩ : WhitespaceSaver)
            = ⟨run, true⟩ := by
          cases run
          rfl
        rw [heta]
        have hchk : WhitespaceSaver.check ⟨run, true⟩ t = (⟨"", false⟩, none) := by
          simp [WhitespaceSaver.check, hs, WhitespaceSaver.nextIsNotASimpleValue]
        rw [hchk]
        simp only [Option.toList, List.nil_append, List.cons_append]
        rw [ih false]
        simp [whitespacePolicySpec, hs]

/-- C7: the token stream queued by the tokenizer realizes the spec's
whitespace policy: a non-newline whitespace run between two simple-value
tokens is materialized as an unquoted-text token carrying exactly that
whitespace, and whitespace next to a non-simple token is discarded. -/
theorem whitespace_saver_matches_policy (pairs : List (String × Token)) :
    runSaver pairs = whitespacePolicySpec false pairs :=
  runSaverAux_eq_spec pairs false

/-! ### Claim C5 -/

mutual

/-- The object invariant claim C2 establishes for constructed objects, as a
recursive well-formedness predicate: every `obj` node's `resolved` flag
agrees with `ResolveStatus.from_values` of its children. -/
def wfV : Value → Bool
  | .obj f r _ =>
    (r == decide (ResolveStatus.fromValues (f.map Prod.snd) = .resolved)) &&
      wfFields f
  | _ => true

def wfFields : List (String × Value) → Bool
  | [] => true
  | (_, v) :: rest => wfV v && wfFields rest

end

def SimpleConfigObject.wf (o : SimpleConfigObject) : Bool :=
  wfV o.toValue

theorem dictGet_nil {α : Type} (k : String) :
    dictGet ([] : List (String × α)) k = none := rfl

theorem dictGet_cons {α : Type} (k' k : String) (v : α)
    (tl : List (String × α)) :
    dictGet ((k', v) :: tl) k = if k' = k then some v else dictGet tl k := rfl

theorem dictSet_nil {α : Type} (k : String) (v : α) :
    dictSet ([] : List (String × α)) k v = [(k, v)] := rfl

theorem dictSet_cons {α : Type} (k' k : String) (v' v : α)
    (tl : List (String × α)) :
    dictSet ((k', v') :: tl) k v
      = if k' = k then (k, v) :: tl else (k', v') :: dictSet tl k v := rfl

theorem dictGet_dictSet_self {α : Type} (d : List (String × α)) (k : String)
    (v : α) : dictGet (dictSet d k v) k = some v := by
  induction d with
  | nil => rw [dictSet_nil, dictGet_cons, if_pos rfl]
  | cons hd tl ih =>
    obtain ⟨k', v'⟩ := hd
    rw [dictSet_cons]
    by_cases h : k' = k
    · rw [if_pos h, dictGet_cons, if_pos rfl]
    · rw [if_neg h, dictGet_cons, if_neg h, ih]

theorem dictGet_dictSet_ne {α : Type} (d : List (String × α)) (k k' : String)
    (v : α) (h : k' ≠ k) :
    dictGet (dictSet d k v) k' = dictGet d k' := by
  have h' : ¬(k = k') := fun e => h (Eq.symm e)
  induction d with
  | nil => rw [dictSet_nil, dictGet_cons, if_neg h']
  | cons hd tl ih =>
    obtain ⟨k'', v''⟩ := hd
    rw [dictSet_cons]
    by_cases h2 : k'' = k
    · subst h2
      rw [if_pos rfl, dictGet_cons, dictGet_cons, if_neg h', if_neg h']
    · rw [if_neg h2, dictGet_cons, dictGet_cons]
      by_cases h3 : k'' = k'
      · rw [if_pos h3, if_pos h3]
      · rw [if_neg h3, if_neg h3, ih]

theorem dictSet_self {α : Type} (d : List (String × α)) (k : String) (v : α)
    (h : dictGet d k = some v) : dictSet d k v = d := by
  induction d with
  | nil => rw [dictGet_nil] at h; cases h
  | cons hd tl ih =>
    obtain ⟨k', v'⟩ := hd
    by_cases h2 : k' = k
    · subst h2
      rw [dictGet_cons, if_pos rfl, Option.some_inj] at h
      rw [dictSet_cons, if_pos rfl, h]
    · rw [dictGet_cons, if_neg h2] at h
      rw [dictSet_cons, if_neg h2, ih h]

theorem removeKey_nil (k : String) : removeKey [] k = [] := rfl

theorem removeKey_cons (k' k : String) (v : Value)
    (tl : List (String × Value)) :
    removeKey ((k', v) :: tl) k
      = if k' ≠ k then (k', v) :: removeKey tl k else removeKey tl k := rfl

theorem dictGet_removeKey_self (d : List (String × Value)) (k : String) :
    dictGet (removeKey d k) k = none := by
  induction d with
  | nil => rfl
  | cons hd tl ih =>
    obtain ⟨k', v'⟩ := hd
    rw [removeKey_cons]
    by_cases h : k' = k
    · rw [if_neg (show ¬(k' ≠ k) by simp [h]), ih]
    · rw [if_pos h, dictGet_cons, if_neg h, ih]

theorem dictGet_removeKey_ne (d : List (String × Value)) (k k' : String)
    (h : k' ≠ k) :
    dictGet (removeKey d k) k' = dictGet d k' := by
  induction d with
  | nil => rfl
  | cons hd tl ih =>
    obtain ⟨k'', v''⟩ := hd
    rw [removeKey_cons]
    by_cases h2 : k'' = k
    · subst h2
      have h3 : ¬(k'' = k') := fun e => h (Eq.symm e)
      rw [if_neg (show ¬(k'' ≠ k'') by simp), dictGet_cons, if_neg h3, ih]
    · rw [if_pos h2, dictGet_cons, dictGet_cons]
      by_cases h3 : k'' = k'
      · rw [if_pos h3, if_pos h3]
      · rw [if_neg h3, if_neg h3, ih]

theorem wfFields_dictGet {f : List (String × Value)} {k : String} {v : Value}
    (hwf : wfFields f = true) (h : dictGet f k = some v) : wfV v = true := by
  induction f with
  | nil => simp [dictGet] at h
  | cons hd tl ih =>
    obtain ⟨k', v'⟩ := hd
    simp only [wfFields, Bool.and_eq_true] at hwf
    by_cases h2 : k' = k
    · simp only [dictGet, if_pos h2, Option.some_inj] at h
      exact h ▸ hwf.1
    · simp only [dictGet, if_neg h2] at h
      exact ih hwf.2 h

theorem decide_some_resolved (s : ResolveStatus) :
    decide (some s = some ResolveStatus.resolved)
      = decide (s = ResolveStatus.resolved) := by
  cases s <;> rfl

theorem mk_fromValues_ok (m : List (String × Value)) (ign : Bool) :
    mkSimpleConfigObject (some m)
        (some (ResolveStatus.fromValues (m.map Prod.snd))) ign
      = .ok ⟨m, decide (ResolveStatus.fromValues (m.map Prod.snd)
          = ResolveStatus.resolved), ign⟩ := by
  simp only [mkSimpleConfigObject]
  rw [if_pos trivial, decide_some_resolved]

theorem peek_eq_of_dictGet_eq (o o' : SimpleConfigObject) (q : Path)
    (h : dictGet o'.value q.first = dictGet o.value q.first) :
    peekPathWithoutContext o' q = peekPathWithoutContext o q := by
  match q with
  | .mk kq none =>
    simpa [peekPathWithoutContext, Path.first] using h
  | .mk kq (some r) =>
    simp only [Path.first] at h
    simp only [peekPathWithoutContext, h]

theorem withoutPath_spec :
    ∀ (p : Path) (o : SimpleConfigObject), o.wf = true →
      ∃ o', o.withoutPath p = .ok o' ∧
        peekPathWithoutContext o' p = none ∧
        (∀ q : Path, ¬(p.toList <+: q.toList) → ¬(q.toList <+: p.toList) →
          peekPathWithoutContext o' q = peekPathWithoutContext o q) ∧
        (peekPathWithoutContext o p = none → o' = o)
  | .mk k next, o, hwf => by
    have hwf1 : o.resolved
        = decide (ResolveStatus.fromValues (o.value.map Prod.snd)
            = .resolved) := by
      have h := hwf
      simp only [SimpleConfigObject.wf, SimpleConfigObject.toValue, wfV,
        Bool.and_eq_true, beq_iff_eq] at h
      exact h.1
    have hwf2 : wfFields o.value = true := by
      have h := hwf
      simp only [SimpleConfigObject.wf, SimpleConfigObject.toValue, wfV,
        Bool.and_eq_true, beq_iff_eq] at h
      exact h.2
    cases next with
    | none =>
      cases hv : dictGet o.value k with
      | none =>
        refine ⟨o, ?_, ?_, fun q _ _ => rfl, fun _ => rfl⟩
        · simp [SimpleConfigObject.withoutPath, hv]
        · simp [peekPathWithoutContext, hv]
      | some v =>
        refine ⟨⟨removeKey o.value k,
          decide (ResolveStatus.fromValues
            ((removeKey o.value k).map Prod.snd)
              = .resolved), o.ignoresFallbacks⟩, ?_, ?_, ?_, ?_⟩
        · simp only [SimpleConfigObject.withoutPath, hv]
          exact mk_fromValues_ok _ _
        · simp only [peekPathWithoutContext]
          exact dictGet_removeKey_self o.value k
        · intro q hq1 hq2
          match q with
          | .mk kq nextq =>
            by_cases hk : kq = k
            · subst hk
              cases nextq with
              | none =>
                exact absurd ⟨[], List.append_nil _⟩ hq1
              | some qrest =>
                exact absurd ⟨qrest.toList, rfl⟩ hq1
            · apply peek_eq_of_dictGet_eq
              simp only [Path.first]
              exact dictGet_removeKey_ne o.value k kq hk
        · intro hnone
          simp only [peekPathWithoutContext, hv] at hnone
          cases hnone
    | some rest =>
      cases hv : dictGet o.value k with
      | none =>
        refine ⟨o, ?_, ?_, fun q _ _ => rfl, fun _ => rfl⟩
        · simp [SimpleConfigObject.withoutPath, hv]
        · simp [peekPathWithoutContext, hv]
      | some v =>
        cases v with
        | lit n =>
          refine ⟨o, ?_, ?_, fun q _ _ => rfl, fun _ => rfl⟩
          · simp [SimpleConfigObject.withoutPath, hv]
          · simp [peekPathWithoutContext, hv]
        | str s =>
          refine ⟨o, ?_, ?_, fun q _ _ => rfl, fun _ => rfl⟩
          · simp [SimpleConfigObject.withoutPath, hv]
          · simp [peekPathWithoutContext, hv]
        | substitution n =>
          refine ⟨o, ?_, ?_, fun q _ _ => rfl, fun _ => rfl⟩
          · simp [SimpleConfigObject.withoutPath, hv]
          · simp [peekPathWithoutContext, hv]
        | delayedMerge s =>
          refine ⟨o, ?_, ?_, fun q _ _ => rfl, fun _ => rfl⟩
          · simp [SimpleConfigObject.withoutPath, hv]
          · simp [peekPathWithoutContext, hv]
        | obj f r i =>
          have hwfc : (⟨f, r, i⟩ : SimpleConfigObject).wf = true := by
            have := wfFields_dictGet hwf2 hv
            simpa [SimpleConfigObject.wf, SimpleConfigObject.toValue] using this
          obtain ⟨c', hok, hpeek, hother, hnoop⟩ :=
            withoutPath_spec rest ⟨f, r, i⟩ hwfc
          refine ⟨⟨dictSet o.value k c'.toValue,
            decide (ResolveStatus.fromValues
              ((dictSet o.value k c'.toValue).map Prod.snd) = .resolved),
            o.ignoresFallbacks⟩, ?_, ?_, ?_, ?_⟩
          · simp only [SimpleConfigObject.withoutPath, hv, hok,
              Bind.bind, Except.bind]
            exact mk_fromValues_ok _ _
          · simp only [peekPathWithoutContext, dictGet_dictSet_self,
              SimpleConfigObject.toValue]
            exact hpeek
          · intro q hq1 hq2
            match q with
            | .mk kq nextq =>
              by_cases hk : kq = k
              · subst hk
                cases nextq with
                | none =>
                  exact absurd ⟨rest.toList, rfl⟩ hq2
                | some qrest =>
                  have h1 : ¬(rest.toList <+: qrest.toList) := by
                    intro hpre
                    exact hq1 (by
                      simp only [Path.toList, List.cons_prefix_cons]
                      exact ⟨trivial, hpre⟩)
                  have h2 : ¬(qrest.toList <+: rest.toList) := by
                    intro hpre
                    exact hq2 (by
                      simp only [Path.toList, List.cons_prefix_cons]
                      exact ⟨trivial, hpre⟩)
                  simp only [peekPathWithoutContext, dictGet_dictSet_self,
                    SimpleConfigObject.toValue, hv]
                  exact hother qrest h1 h2
              · apply peek_eq_of_dictGet_eq
                simp only [Path.first]
                exact dictGet_dictSet_ne o.value k kq c'.toValue hk
          · intro hnone
            simp only [peekPathWithoutContext, hv] at hnone
            have hc := hnoop hnone
            subst hc
            have hset : dictSet o.value k
                ((⟨f, r, i⟩ : SimpleConfigObject).toValue) = o.value :=
              dictSet_self o.value k _
                (by simpa [SimpleConfigObject.toValue] using hv)
            rw [hset, ← hwf1]

/-- C5: `without_path(p)` returns an object in which the entry at `p` is
removed (peeking `p` yields `None`), every entry at a path incomparable with
`p` (neither a prefix of the other) is unchanged, and when `p` is absent or
blocked by a non-object ancestor — that is, `p` does not peek to a value —
the receiver itself is returned (structurally; the code may rebuild an equal
copy along the descent). -/
theorem without_path_removes_only_path (o : SimpleConfigObject) (p : Path)
    (hwf : o.wf = true) :
    ∃ o', o.withoutPath p = .ok o' ∧
      peekPathWithoutContext o' p = none ∧
      (∀ q : Path, ¬(p.toList <+: q.toList) → ¬(q.toList <+: p.toList) →
        peekPathWithoutContext o' q = peekPathWithoutContext o q) ∧
      (peekPathWithoutContext o p = none → o' = o) :=
  withoutPath_spec p o hwf

/-- Witness for C5 at `o = {a: {b: lit 0}, c: lit 1}` and `p = a.b`. -/
theorem without_path_removes_only_path_witness :
    ∃ o', SimpleConfigObject.withoutPath
        ⟨[("a", .obj [("b", .lit 0)] true false), ("c", .lit 1)], true, false⟩
        (.mk "a" (some (.mk "b" none))) = .ok o' ∧
      peekPathWithoutContext o' (.mk "a" (some (.mk "b" none))) = none ∧
      (∀ q : Path,
        ¬((Path.mk "a" (some (.mk "b" none))).toList <+: q.toList) →
        ¬(q.toList <+: (Path.mk "a" (some (.mk "b" none))).toList) →
          peekPathWithoutContext o' q = peekPathWithoutContext
            ⟨[("a", .obj [("b", .lit 0)] true false), ("c", .lit 1)],
              true, false⟩ q) ∧
      (peekPathWithoutContext
          ⟨[("a", .obj [("b", .lit 0)] true false), ("c", .lit 1)],
            true, false⟩ (.mk "a" (some (.mk "b" none))) = none →
        o' = ⟨[("a", .obj [("b", .lit 0)] true false), ("c", .lit 1)],
          true, false⟩) :=
  without_path_removes_only_path
    ⟨[("a", .obj [("b", .lit 0)] true false), ("c", .lit 1)], true, false⟩
    (.mk "a" (some (.mk "b" none))) rfl

end Hocon
